import Mathlib

/-!
Verification of the dihedral-restraint utility `restrain_pucker_idoa.py`.

The program has two components:
* `get_dict_selections` (the Selector): scans the lines of an `.itp` file and
  builds a dictionary from `AtomName_ResidueID` keys to atom-index values.
* `format_restraint` (the Formatter): from that dictionary, derives the list of
  residue ids and prints a fixed block of six dihedral-restraint lines per
  residue, wrapped in an `#ifdef PUCKER` / `#endif` guard.

The embedding models lines as `String`s (line contents without the trailing
newline, which is irrelevant to the substring tests and whitespace splits the
code performs), the Python dict as an insertion-ordered association list with
in-place overwrite, Python `IndexError` on list indexing as `Option`, and the
Python `KeyError` raised by `dictio[key]` as `Except String` carrying the key.
-/

namespace RestrainPucker

/-- A Python `dict` whose keys and values are strings, modelled as an
insertion-ordered association list. -/
abbrev Dict := List (String × String)

/-- Split a character list at every character satisfying `p`, keeping empty
chunks (the splitting behaviour shared by Python `str.split(sep)` before
empty-chunk removal). -/
def splitP (p : Char → Bool) : List Char → List (List Char)
  | [] => [[]]
  | x :: xs =>
    let r := splitP p xs
    if p x then [] :: r
    else
      match r with
      | [] => [[x]]
      | y :: ys => (x :: y) :: ys

/-- Python `line.split()`: split on runs of whitespace, dropping empty fields. -/
def pysplit (s : String) : List String :=
  ((splitP (fun c => c.isWhitespace) s.data).filter (fun t => t ≠ [])).map
    (fun l => String.mk l)

/-- Does `pat` occur at the start of `l`? -/
def leadMatch : List Char → List Char → Bool
  | [], _ => true
  | _ :: _, [] => false
  | p :: ps, x :: xs => p = x && leadMatch ps xs

/-- Does `pat` occur as a contiguous sublist of `l`? -/
def occursAux (pat : List Char) : List Char → Bool
  | [] => leadMatch pat []
  | x :: xs => leadMatch pat (x :: xs) || occursAux pat xs

/-- The Python substring test `pat in s`. -/
def pyIn (pat s : String) : Bool := occursAux pat.data s.data

/-- Python dict assignment `d[k] = v`: overwrite in place when the key exists
(keeping its original insertion position), otherwise append at the end. -/
def dinsert (d : Dict) (k v : String) : Dict :=
  match d with
  | [] => [(k, v)]
  | (k', v') :: rest => if k' = k then (k, v) :: rest else (k', v') :: dinsert rest k v

/-- Python dict lookup `d[k]`, as an `Option`. -/
def mlookup (k : String) : Dict → Option String
  | [] => none
  | (k', v) :: rest => if k' = k then some v else mlookup k rest

/-- The body of the Selector block `if start:` for one line: split the line,
test field 3 against the residue-type substrings `YuA`/`AIDOA`, test field 4
against the six ring-atom substrings, and on a double match store
`line[0]` under the key `line[4] ++ "_" ++ line[2]`.  A missing positional
field is a Python `IndexError`, i.e. `none`. -/
def lineStep (line : String) (d : Dict) : Option Dict :=
  let fs := pysplit line
  match fs[3]? with
  | none => none
  | some f3 =>
    if (["YuA", "AIDOA"].any fun t => pyIn t f3) then
      match fs[4]? with
      | none => none
      | some f4 =>
        if (["C1", "O5", "C5", "C4", "C2", "C3"].any fun t => pyIn t f4) then
          match fs[2]?, fs[0]? with
          | some f2, some f0 => some (dinsert d (f4 ++ "_" ++ f2) f0)
          | _, _ => none
        else some d
    else some d

/-- One pass of the Selector loop `for i, line in enumerate(lines)`, starting
at index `i` with flag `start` and accumulated dictionary `d`.  `fuel` is
`lines.length - i`, so the structural recursion mirrors the loop exactly:

* `lines[i+1]` is peeked first; past the end this is an `IndexError` (`none`);
  if it contains `[ bonds ]` the loop breaks, returning `d`;
* if `start` is set, the current line is processed by `lineStep`;
* finally `lines[i-1]` (which in Python is `lines[-1]`, the *last* line, when
  `i = 0`) is tested for `[ atoms ]` to set `start`. -/
def selLoop (lines : List String) : Nat → Nat → Bool → Dict → Option Dict
  | 0, _, _, d => some d
  | fuel + 1, i, start, d =>
    match lines[i + 1]? with
    | none => none
    | some nxt =>
      if pyIn "[ bonds ]" nxt then some d
      else
        match (if start then lineStep (lines.getD i "") d else some d) with
        | none => none
        | some d' =>
          let prev := if i = 0 then lines.getD (lines.length - 1) "" else lines.getD (i - 1) ""
          selLoop lines fuel (i + 1) (start || pyIn "[ atoms ]" prev) d'

/-- The Selector `get_dict_selections`, on the list of lines of the input
file; `none` is an uncaught `IndexError`. -/
def get_dict_selections (lines : List String) : Option Dict :=
  selLoop lines lines.length 0 false []

/-- Python `k.split('_')[1]`: the element at index 1 of the underscore-split
of the key (`IndexError`, i.e. `none`, when the key has no underscore). -/
def residOf (k : String) : Option String :=
  ((splitP (fun c => c = '_') k.data).map (fun l => String.mk l))[1]?

/-- `ordered_set.OrderedSet`: deduplicate keeping the first occurrence of each
element, preserving first-insertion order. -/
def osetAux : List String → List String → List String
  | _, [] => []
  | seen, x :: xs => if x ∈ seen then osetAux seen xs else x :: osetAux (x :: seen) xs

/-- `oset(l)` as a list in first-insertion order. -/
def osetList (l : List String) : List String := osetAux [] l

/-- The Formatter residue-id derivation
`oset([k.split('_')[1] for k in dictio.keys()])`. -/
def residsOf (d : Dict) : Option (List String) :=
  ((d.map (fun p => p.1)).mapM residOf).map osetList

/-- The six restraint lines emitted for one residue id: six lookups in the
order `C1 O5 C5 C4 C3 C2` (a missing key is a Python `KeyError`, carrying the
key), then the six fixed-format lines with the atom indices substituted. -/
def formatResid (d : Dict) (resid : String) : Except String String :=
  match mlookup ("C1_" ++ resid) d with
  | none => .error ("C1_" ++ resid)
  | some c1 =>
  match mlookup ("O5_" ++ resid) d with
  | none => .error ("O5_" ++ resid)
  | some o5 =>
  match mlookup ("C5_" ++ resid) d with
  | none => .error ("C5_" ++ resid)
  | some c5 =>
  match mlookup ("C4_" ++ resid) d with
  | none => .error ("C4_" ++ resid)
  | some c4 =>
  match mlookup ("C3_" ++ resid) d with
  | none => .error ("C3_" ++ resid)
  | some c3 =>
  match mlookup ("C2_" ++ resid) d with
  | none => .error ("C2_" ++ resid)
  | some c2 =>
    .ok
      ("    " ++ c1 ++ "   " ++ o5 ++ "   " ++ c5 ++ "   " ++ c4 ++
        "     1    -60.0      2.5       DIHRES_FC ; C1    O5    C5    C4\n" ++
       "    " ++ o5 ++ "   " ++ c5 ++ "   " ++ c4 ++ "   " ++ c3 ++
        "     1     60.0      2.5       DIHRES_FC ; O5    C5    C4    C3\n" ++
       "    " ++ c5 ++ "   " ++ c4 ++ "   " ++ c3 ++ "   " ++ c2 ++
        "     1    -60.0      2.5       DIHRES_FC ; C5    C4    C3    C2\n" ++
       "    " ++ c4 ++ "   " ++ c3 ++ "   " ++ c2 ++ "   " ++ c1 ++
        "     1     60.0      2.5       DIHRES_FC ; C4    C3    C2    C1\n" ++
       "    " ++ c3 ++ "   " ++ c2 ++ "   " ++ c1 ++ "   " ++ o5 ++
        "     1    -60.0      2.5       DIHRES_FC ; C3    C2    C1    O5\n" ++
       "    " ++ c2 ++ "   " ++ c1 ++ "   " ++ o5 ++ "   " ++ c5 ++
        "     1     60.0      2.5       DIHRES_FC ; C2    C1    O5    C5\n")

/-- The Formatter loop `for resid in resids:`, concatenating the per-residue
blocks; the first `KeyError` aborts the whole loop. -/
def formatBody (d : Dict) : List String → Except String String
  | [] => .ok ""
  | r :: rs =>
    match formatResid d r with
    | .error e => .error e
    | .ok s =>
      match formatBody d rs with
      | .error e => .error e
      | .ok rest => .ok (s ++ rest)

/-- The Formatter `format_restraint`: the printed string on success, the
`KeyError` key (or `"IndexError"` for a key without an underscore) on
failure. -/
def format_restraint (d : Dict) : Except String String :=
  match residsOf d with
  | none => .error "IndexError"
  | some resids =>
    match formatBody d resids with
    | .error e => .error e
    | .ok body => .ok ("#ifdef PUCKER\n[ dihedral_restraints ]\n" ++ body ++ "#endif")

/-- The whole program on the lines of an input file: Selector then Formatter. -/
def main_run (lines : List String) : Except String String :=
  match get_dict_selections lines with
  | none => .error "IndexError"
  | some d => format_restraint d

/-! ### Definitions used only to state and prove properties -/

/-- The suffix of a character list after the first occurrence of `c`
(`none` when `c` does not occur). -/
def suffixAfterChar (c : Char) : List Char → Option (List Char)
  | [] => none
  | x :: xs => if x = c then some xs else suffixAfterChar c xs

/-- Modelled from the spec wording for the residue-id derivation: the
substring of the key after the *first* underscore (the full suffix, even when
the residue-id part itself contains an underscore). -/
def specResidSuffix (k : String) : Option String :=
  (suffixAfterChar '_' k.data).map (fun l => String.mk l)

/-- The spec wording of the ordered residue-id set: first-insertion order,
deduplicated, over the full after-first-underscore suffixes. -/
def specResidsOf (d : Dict) : Option (List String) :=
  ((d.map (fun p => p.1)).mapM specResidSuffix).map osetList

/-- The six keys the Formatter looks up for one residue id, in lookup order. -/
def requiredKeys (r : String) : List String :=
  ["C1_" ++ r, "O5_" ++ r, "C5_" ++ r, "C4_" ++ r, "C3_" ++ r, "C2_" ++ r]

/-- `dinsert` on a pair. -/
def insPair (d : Dict) (e : String × String) : Dict := dinsert d e.1 e.2

/-- Fold a list of (key, value) pairs into a dictionary by repeated
Python-dict assignment. -/
def buildDict (d : Dict) (es : List (String × String)) : Dict :=
  es.foldl insPair d

/-- The value of the *last* entry with key `k` in an emission list. -/
def lastVal (k : String) (es : List (String × String)) : Option String :=
  (es.reverse.find? (fun e => decide (e.1 = k))).map (fun e => e.2)

/-- The entry (if any) that one active line contributes, with the same branch
structure as `lineStep`: outer `none` is an `IndexError`, `some none` is a
filtered-out line, `some (some e)` is a recorded entry. -/
def lineEntry (line : String) : Option (Option (String × String)) :=
  let fs := pysplit line
  match fs[3]? with
  | none => none
  | some f3 =>
    if (["YuA", "AIDOA"].any fun t => pyIn t f3) then
      match fs[4]? with
      | none => none
      | some f4 =>
        if (["C1", "O5", "C5", "C4", "C2", "C3"].any fun t => pyIn t f4) then
          match fs[2]?, fs[0]? with
          | some f2, some f0 => some (some (f4 ++ "_" ++ f2, f0))
          | _, _ => none
        else some none
    else some none

/-- Mirror of `selLoop` that collects the entries emitted from position `i`
onward (in scan order) instead of folding them into a dictionary. -/
def selEntriesLoop (lines : List String) : Nat → Nat → Bool → Option (List (String × String))
  | 0, _, _ => some []
  | fuel + 1, i, start =>
    match lines[i + 1]? with
    | none => none
    | some nxt =>
      if pyIn "[ bonds ]" nxt then some []
      else
        match (if start then lineEntry (lines.getD i "") else some none) with
        | none => none
        | some eo =>
          let prev := if i = 0 then lines.getD (lines.length - 1) "" else lines.getD (i - 1) ""
          match selEntriesLoop lines fuel (i + 1) (start || pyIn "[ atoms ]" prev) with
          | none => none
          | some es =>
            some (match eo with | none => es | some e => e :: es)

/-- The list of (key, index) entries the Selector emits for a file, in scan
order; `none` when the scan raises. -/
def selEntries (lines : List String) : Option (List (String × String)) :=
  selEntriesLoop lines lines.length 0 false

/-- The lines of an output string: split the character data at every
newline. -/
def lineList (s : String) : List String :=
  (splitP (fun c => c = '\x0a') s.data).map (fun l => String.mk l)

/-- Glue a list of lines, a newline after each one. -/
def glueNL : List (List Char) → List Char
  | [] => []
  | x :: xs => x ++ '\x0a' :: glueNL xs

/-- The six atom records of the spec end-to-end scenario: residue id 5,
residue type AIDOA, atoms C1 O5 C5 C4 C3 C2 with indices 10 to 15. -/
def c2Lines : List String :=
  ["10 X 5 AIDOA C1", "11 X 5 AIDOA O5", "12 X 5 AIDOA C5",
   "13 X 5 AIDOA C4", "14 X 5 AIDOA C3", "15 X 5 AIDOA C2"]

/-- The (key, index) entry a well-formed atom record produces. -/
def c2Entry (x : String) : String × String :=
  (((pysplit x).getD 4 "") ++ "_" ++ ((pysplit x).getD 2 ""), (pysplit x).getD 0 "")

/-- The exact output block of the spec end-to-end scenario. -/
def c2Expected : String :=
  "#ifdef PUCKER\n[ dihedral_restraints ]\n    10   11   12   13     1    -60.0      2.5       DIHRES_FC ; C1    O5    C5    C4\n    11   12   13   14     1     60.0      2.5       DIHRES_FC ; O5    C5    C4    C3\n    12   13   14   15     1    -60.0      2.5       DIHRES_FC ; C5    C4    C3    C2\n    13   14   15   10     1     60.0      2.5       DIHRES_FC ; C4    C3    C2    C1\n    14   15   10   11     1    -60.0      2.5       DIHRES_FC ; C3    C2    C1    O5\n    15   10   11   12     1     60.0      2.5       DIHRES_FC ; C2    C1    O5    C5\n#endif"

/-- The six restraint lines of one residue block, without their trailing
newlines, as functions of the six looked-up indices. -/
def residLines (c1 o5 c5 c4 c3 c2 : String) : List String :=
  ["    " ++ c1 ++ "   " ++ o5 ++ "   " ++ c5 ++ "   " ++ c4 ++
     "     1    -60.0      2.5       DIHRES_FC ; C1    O5    C5    C4",
   "    " ++ o5 ++ "   " ++ c5 ++ "   " ++ c4 ++ "   " ++ c3 ++
     "     1     60.0      2.5       DIHRES_FC ; O5    C5    C4    C3",
   "    " ++ c5 ++ "   " ++ c4 ++ "   " ++ c3 ++ "   " ++ c2 ++
     "     1    -60.0      2.5       DIHRES_FC ; C5    C4    C3    C2",
   "    " ++ c4 ++ "   " ++ c3 ++ "   " ++ c2 ++ "   " ++ c1 ++
     "     1     60.0      2.5       DIHRES_FC ; C4    C3    C2    C1",
   "    " ++ c3 ++ "   " ++ c2 ++ "   " ++ c1 ++ "   " ++ o5 ++
     "     1    -60.0      2.5       DIHRES_FC ; C3    C2    C1    O5",
   "    " ++ c2 ++ "   " ++ c1 ++ "   " ++ o5 ++ "   " ++ c5 ++
     "     1     60.0      2.5       DIHRES_FC ; C2    C1    O5    C5"]

/-! ### Dictionary lemmas -/

theorem mlookup_dinsert (k k0 v0 : String) :
    ∀ d : Dict, mlookup k (dinsert d k0 v0) = if k0 = k then some v0 else mlookup k d := by
  intro d
  induction d with
  | nil =>
    by_cases h : k0 = k <;> simp [dinsert, mlookup, h]
  | cons e rest ih =>
    obtain ⟨k1, v1⟩ := e
    by_cases h1 : k1 = k0
    · subst h1
      by_cases h2 : k1 = k <;> simp [dinsert, mlookup, h2]
    · by_cases h2 : k1 = k
      · subst h2
        have hne : k0 ≠ k1 := fun h => h1 h.symm
        simp [dinsert, mlookup, h1, hne]
      · simp [dinsert, mlookup, h1, h2, ih]

theorem mlookup_mem {k v : String} : ∀ {d : Dict}, mlookup k d = some v → (k, v) ∈ d := by
  intro d
  induction d with
  | nil => intro h; simp [mlookup] at h
  | cons e rest ih =>
    obtain ⟨k1, v1⟩ := e
    intro h
    by_cases h1 : k1 = k
    · subst h1
      simp [mlookup] at h
      simp [h]
    · simp [mlookup, h1] at h
      exact List.mem_cons_of_mem _ (ih h)

theorem mlookup_buildDict (k : String) :
    ∀ (es : List (String × String)) (d : Dict),
      mlookup k (buildDict d es) =
        match lastVal k es with
        | some v => some v
        | none => mlookup k d := by
  intro es
  induction es with
  | nil => intro d; simp [buildDict, lastVal]
  | cons e es ih =>
    intro d
    have hb : buildDict d (e :: es) = buildDict (insPair d e) es := rfl
    have hl : lastVal k (e :: es) =
        match es.reverse.find? (fun x => decide (x.1 = k)) with
        | some x => some x.2
        | none => if e.1 = k then some e.2 else none := by
      unfold lastVal
      rw [show (e :: es).reverse = es.reverse ++ [e] by simp, List.find?_append]
      cases hf : es.reverse.find? (fun x => decide (x.1 = k)) with
      | some x => simp [hf, Option.or]
      | none =>
        by_cases he : e.1 = k <;> simp [hf, Option.or, List.find?, he]
    rw [hb, ih (insPair d e), hl]
    cases hf : es.reverse.find? (fun x => decide (x.1 = k)) with
    | some x => simp [lastVal, hf]
    | none =>
      by_cases he : e.1 = k <;>
        simp [lastVal, hf, insPair, mlookup_dinsert, he]

theorem mem_keys_dinsert {x k v : String} :
    ∀ {d : Dict}, x ∈ (dinsert d k v).map (fun p => p.1) →
      x ∈ d.map (fun p => p.1) ∨ x = k := by
  intro d
  induction d with
  | nil =>
    intro h
    rw [show dinsert [] k v = [(k, v)] from rfl] at h
    simp only [List.map_cons, List.map_nil, List.mem_cons, List.not_mem_nil, or_false] at h
    exact Or.inr h
  | cons e rest ih =>
    obtain ⟨k1, v1⟩ := e
    intro h
    rw [show dinsert ((k1, v1) :: rest) k v =
        if k1 = k then (k, v) :: rest else (k1, v1) :: dinsert rest k v from rfl] at h
    by_cases h1 : k1 = k
    · rw [if_pos h1] at h
      simp only [List.map_cons, List.mem_cons] at h ⊢
      rcases h with h | h
      · exact Or.inr h
      · exact Or.inl (Or.inr h)
    · rw [if_neg h1] at h
      simp only [List.map_cons, List.mem_cons] at h ⊢
      rcases h with h | h
      · exact Or.inl (Or.inl h)
      · rcases ih h with h2 | h2
        · exact Or.inl (Or.inr h2)
        · exact Or.inr h2

theorem mem_keys_buildDict {x : String} :
    ∀ {es : List (String × String)} {d : Dict},
      x ∈ (buildDict d es).map (fun p => p.1) →
        x ∈ d.map (fun p => p.1) ∨ x ∈ es.map (fun p => p.1) := by
  intro es
  induction es with
  | nil => intro d h; exact Or.inl h
  | cons e es ih =>
    intro d h
    have hb : buildDict d (e :: es) = buildDict (insPair d e) es := rfl
    rw [hb] at h
    rcases ih h with h2 | h2
    · rcases mem_keys_dinsert h2 with h3 | h3
      · exact Or.inl h3
      · exact Or.inr (by simp [h3])
    · exact Or.inr (by simp [h2] )

theorem find?_eq_of_nodup_mem {k v : String} :
    ∀ {L : List (String × String)}, (L.map (fun p => p.1)).Nodup → (k, v) ∈ L →
      L.find? (fun e => decide (e.1 = k)) = some (k, v) := by
  intro L
  induction L with
  | nil => intro _ h; simp at h
  | cons e L ih =>
    intro hnd hm
    rcases List.mem_cons.mp hm with h | h
    · subst h
      simp [List.find?]
    · have hk : k ∈ L.map (fun p => p.1) := List.mem_map.mpr ⟨(k, v), h, rfl⟩
      have hnd' : e.1 ∉ L.map (fun p => p.1) ∧ (L.map (fun p => p.1)).Nodup := by
        rw [List.map_cons] at hnd
        exact List.nodup_cons.mp hnd
      have he : e.1 ≠ k := fun hek => hnd'.1 (hek ▸ hk)
      simp [List.find?, he]
      exact ih hnd'.2 h

theorem lastVal_of_nodup {k v : String} {es : List (String × String)}
    (hnd : (es.map (fun p => p.1)).Nodup) (hm : (k, v) ∈ es) :
    lastVal k es = some v := by
  have hnd2 : (es.reverse.map (fun p => p.1)).Nodup := by
    rw [List.map_reverse]
    exact List.nodup_reverse.mpr hnd
  have hm2 : (k, v) ∈ es.reverse := List.mem_reverse.mpr hm
  unfold lastVal
  rw [find?_eq_of_nodup_mem hnd2 hm2]
  rfl

/-! ### mapM and ordered-set lemmas -/

theorem mapM_congr_some {f g : String → Option String} :
    ∀ {L : List String}, (∀ x ∈ L, f x = g x) → L.mapM f = L.mapM g := by
  intro L
  induction L with
  | nil => intro _; rfl
  | cons x L ih =>
    intro h
    rw [List.mapM_cons, List.mapM_cons, h x (by simp), ih (fun y hy => h y (by simp [hy]))]

theorem mapM_const_some {a : String} {f : String → Option String} :
    ∀ {L : List String}, (∀ x ∈ L, f x = some a) →
      L.mapM f = some (L.map fun _ => a) := by
  intro L
  induction L with
  | nil => intro _; rfl
  | cons x L ih =>
    intro h
    rw [List.mapM_cons, h x (by simp), ih (fun y hy => h y (by simp [hy]))]
    rfl

theorem osetAux_of_seen : ∀ {L seen : List String}, (∀ x ∈ L, x ∈ seen) → osetAux seen L = [] := by
  intro L
  induction L with
  | nil => intro _ _; rfl
  | cons x L ih =>
    intro seen h
    have hx : x ∈ seen := h x (by simp)
    simp [osetAux, hx]
    exact ih (fun y hy => h y (by simp [hy]))

theorem osetList_const {a : String} :
    ∀ {L : List String}, L ≠ [] → (∀ x ∈ L, x = a) → osetList L = [a] := by
  intro L
  cases L with
  | nil => intro h _; exact absurd rfl h
  | cons x L =>
    intro _ h
    have hx : x = a := h x (by simp)
    subst hx
    unfold osetList
    simp [osetAux]
    exact osetAux_of_seen (fun y hy => by simp [h y (by simp [hy])])

/-! ### Character-splitting lemmas -/

theorem splitP_sep_free {p : Char → Bool} :
    ∀ {l : List Char}, (∀ x ∈ l, p x = false) → splitP p l = [l] := by
  intro l
  induction l with
  | nil => intro _; rfl
  | cons x l ih =>
    intro h
    have hx : p x = false := h x (by simp)
    rw [splitP]
    simp only [hx]
    rw [ih (fun y hy => h y (by simp [hy]))]
    simp

theorem splitP_append {p : Char → Bool} {c : Char} (hc : p c = true) :
    ∀ {l1 l2 : List Char}, (∀ x ∈ l1, p x = false) →
      splitP p (l1 ++ c :: l2) = l1 :: splitP p l2 := by
  intro l1
  induction l1 with
  | nil =>
    intro l2 _
    simp [splitP, hc]
  | cons x l1 ih =>
    intro l2 h
    have hx : p x = false := h x (by simp)
    have ih2 : splitP p (l1 ++ c :: l2) = l1 :: splitP p l2 :=
      ih (fun y hy => h y (by simp [hy]))
    rw [List.cons_append, splitP]
    simp only [hx, ih2]
    simp

theorem suffixAfterChar_append {c : Char} :
    ∀ {a b : List Char}, c ∉ a → suffixAfterChar c (a ++ c :: b) = some b := by
  intro a
  induction a with
  | nil => intro b _; simp [suffixAfterChar]
  | cons x a ih =>
    intro b h
    have hx : x ≠ c := by
      intro hxc
      exact h (by simp [hxc])
    rw [List.cons_append, suffixAfterChar]
    simp [hx]
    exact ih (fun hm => h (by simp [hm]))

theorem count_one_split {l : List Char} (h : l.count '_' = 1) :
    ∃ a b, l = a ++ '_' :: b ∧ '_' ∉ a ∧ '_' ∉ b := by
  induction l with
  | nil => simp at h
  | cons x l ih =>
    by_cases hx : x = '_'
    · subst hx
      rw [List.count_cons_self] at h
      have h0 : l.count '_' = 0 := by omega
      have hnm : '_' ∉ l := List.count_eq_zero.mp h0
      exact ⟨[], l, by simp, by simp, hnm⟩
    · have hcnt : l.count '_' = 1 := by
        rw [List.count_cons] at h
        simpa [hx] using h
      obtain ⟨a, b, hl, ha, hb⟩ := ih hcnt
      refine ⟨x :: a, b, by simp [hl], ?_, hb⟩
      intro hm
      rcases List.mem_cons.mp hm with h2 | h2
      · exact hx h2.symm
      · exact ha h2

/-! ### Unfolding lemma for the Selector loop -/

theorem selLoop_succ (lines : List String) (fuel i : Nat) (start : Bool) (d : Dict) :
    selLoop lines (fuel + 1) i start d =
      match lines[i + 1]? with
      | none => none
      | some nxt =>
        if pyIn "[ bonds ]" nxt then some d
        else
          match (if start then lineStep (lines.getD i "") d else some d) with
          | none => none
          | some d' =>
            selLoop lines fuel (i + 1)
              (start || pyIn "[ atoms ]"
                (if i = 0 then lines.getD (lines.length - 1) "" else lines.getD (i - 1) "")) d' := rfl

/-! ### The claims -/

/-- C9: on the empty SelectionMap the Formatter does not fail and prints
exactly the three lines of the guard block, with no restraint lines. -/
theorem claim_C9_empty_map :
    format_restraint [] = .ok "#ifdef PUCKER\n[ dihedral_restraints ]\n#endif" ∧
    lineList "#ifdef PUCKER\n[ dihedral_restraints ]\n#endif" =
      ["#ifdef PUCKER", "[ dihedral_restraints ]", "#endif"] := by
  exact ⟨rfl, by decide⟩

/-- C3: the Selector filters are substring containment, not equality: any
active record whose residue-type field contains `YuA` or `AIDOA` and whose
atom-name field contains one of the six ring-atom labels contributes an entry;
`C11` is accepted by the `C1` filter, a residue type containing `YuA` strictly
inside a longer token is accepted, and residue type `GLC` contributes
nothing. -/
theorem claim_C3_substring_filters :
    (∀ (line : String) (d : Dict) (f0 f1 f2 f3 f4 : String) (rest : List String),
        pysplit line = f0 :: f1 :: f2 :: f3 :: f4 :: rest →
        (["YuA", "AIDOA"].any fun t => pyIn t f3) = true →
        (["C1", "O5", "C5", "C4", "C2", "C3"].any fun t => pyIn t f4) = true →
        lineStep line d = some (dinsert d (f4 ++ "_" ++ f2) f0)) ∧
    pyIn "C1" "C11" = true ∧
    get_dict_selections ["[ atoms ]", "; h", "10 X 5 AIDOA C11", "; p", "[ bonds ]"] =
      some [("C11_5", "10")] ∧
    get_dict_selections ["[ atoms ]", "; h", "10 X 7 xYuAz O5", "; p", "[ bonds ]"] =
      some [("O5_7", "10")] ∧
    get_dict_selections ["[ atoms ]", "; h", "10 X 5 GLC C1", "; p", "[ bonds ]"] = some [] := by
  refine ⟨?_, by decide, by decide, by decide, by decide⟩
  intro line d f0 f1 f2 f3 f4 rest hsplit h3 h4
  unfold lineStep
  simp only [hsplit, List.getElem?_cons_succ, List.getElem?_cons_zero, h3, h4, if_true]

/-- Witness for C3 at a concrete line with atom-name field `C11`. -/
theorem claim_C3_witness :
    lineStep "10 X 5 AIDOA C11" [] = some (dinsert [] ("C11" ++ "_" ++ "5") "10") :=
  claim_C3_substring_filters.1 "10 X 5 AIDOA C11" [] "10" "X" "5" "AIDOA" "C11" []
    (by decide) (by decide) (by decide)

/-- C1 counterexample: a file in which the first data line directly after the
`[ atoms ]` header passes both filters (as the second conjunct shows), yet
the Selector returns an empty SelectionMap: that line is never parsed. -/
theorem claim_C1_counterexample :
    get_dict_selections ["[ atoms ]", "10 X 5 AIDOA C1", "99 X 9 ZZZ QQ", "[ bonds ]"] =
      some [] ∧
    lineStep "10 X 5 AIDOA C1" [] = some [("C1_5", "10")] := by
  exact ⟨by decide, by decide⟩

/-- C1 amended: candidate atom records start at the *second* line after the
`[ atoms ]` marker; the line immediately after the marker is skipped no matter
what it contains (it is only consulted by the one-line `[ bonds ]`
lookahead). -/
theorem claim_C1_amended (l1 : String) (hb : pyIn "[ bonds ]" l1 = false) :
    get_dict_selections ["[ atoms ]", l1, "20 X 7 AIDOA O5 q", "; pad", "[ bonds ]"] =
      some [("O5_7", "20")] := by
  rw [show get_dict_selections ["[ atoms ]", l1, "20 X 7 AIDOA O5 q", "; pad", "[ bonds ]"] =
      selLoop ["[ atoms ]", l1, "20 X 7 AIDOA O5 q", "; pad", "[ bonds ]"] (4 + 1) 0 false []
      from rfl, selLoop_succ]
  simp only [List.getElem?_cons_succ, List.getElem?_cons_zero, hb]
  rfl

/-- Witness for C1 amended: a first data line that would itself pass both
filters still contributes nothing. -/
theorem claim_C1_amended_witness :
    get_dict_selections ["[ atoms ]", "11 X 7 AIDOA C1 x", "20 X 7 AIDOA O5 q", "; pad",
      "[ bonds ]"] = some [("O5_7", "20")] :=
  claim_C1_amended "11 X 7 AIDOA C1 x" (by decide)

/-- C10 counterexample: an active line with exactly four whitespace fields and
a non-matching residue type is processed without any failure, so the Selector
is total on some files whose active lines have fewer than five fields. -/
theorem claim_C10_counterexample :
    get_dict_selections ["[ atoms ]", "; h", "1 X 5 GLC", "; p", "[ bonds ]"] = some [] ∧
    (pysplit "1 X 5 GLC").length = 4 := by
  exact ⟨by decide, by decide⟩

/-- C10 amended: field 3 is accessed unconditionally on active lines, so an
active line with fewer than four fields always raises; field 4 is accessed
only when the residue-type filter matches, so a four-field active line raises
exactly when its residue type matches. -/
theorem claim_C10_amended :
    (∀ (line : String) (d : Dict), (pysplit line).length < 4 → lineStep line d = none) ∧
    (∀ (line : String) (d : Dict) (f0 f1 f2 f3 : String),
        pysplit line = [f0, f1, f2, f3] →
        (["YuA", "AIDOA"].any fun t => pyIn t f3) = false →
        lineStep line d = some d) ∧
    (∀ (line : String) (d : Dict) (f0 f1 f2 f3 : String),
        pysplit line = [f0, f1, f2, f3] →
        (["YuA", "AIDOA"].any fun t => pyIn t f3) = true →
        lineStep line d = none) := by
  refine ⟨?_, ?_, ?_⟩
  · intro line d hlt
    have h3 : (pysplit line)[3]? = none := List.getElem?_eq_none (by omega)
    unfold lineStep
    simp only [h3]
  · intro line d f0 f1 f2 f3 hsplit h3
    unfold lineStep
    simp only [hsplit, List.getElem?_cons_succ, List.getElem?_cons_zero, h3]
    rfl
  · intro line d f0 f1 f2 f3 hsplit h3
    unfold lineStep
    simp only [hsplit, List.getElem?_cons_succ, List.getElem?_cons_zero, h3, if_true]
    rfl

/-- Witness for C10 amended: a blank active line (zero fields) raises. -/
theorem claim_C10_witness : lineStep "" [] = none :=
  claim_C10_amended.1 "" [] (by decide)

/-- C4 counterexample: for the key `C1_5_6` (residue-id part containing an
underscore) the code derives the id `5` (the segment between the first and
second underscore), not the full suffix `5_6` that the claim specifies. -/
theorem claim_C4_counterexample :
    residsOf [("C1_5_6", "10")] = some ["5"] ∧
    specResidsOf [("C1_5_6", "10")] = some ["5_6"] ∧
    ("5" : String) ≠ "5_6" := by
  exact ⟨by decide, by decide, by decide⟩

/-- C4 amended: the derived id is element 1 of the underscore-split of the
key (the segment between the first and the second underscore); when every key
contains exactly one underscore this agrees with the spec reading (the suffix
after the first underscore), and the derivation preserves first-insertion
order and removes duplicates. -/
theorem claim_C4_amended :
    (∀ d : Dict, (∀ e ∈ d, e.1.data.count '_' = 1) → residsOf d = specResidsOf d) ∧
    residsOf [("C1_7", "1"), ("C1_5", "2"), ("O5_7", "3")] = some ["7", "5"] := by
  refine ⟨?_, by decide⟩
  intro d h
  unfold residsOf specResidsOf
  congr 1
  apply mapM_congr_some
  intro k hk
  obtain ⟨e, he, rfl⟩ := List.mem_map.mp hk
  obtain ⟨a, b, hab, ha, hbn⟩ := count_one_split (h e he)
  unfold residOf specResidSuffix
  rw [hab, suffixAfterChar_append ha,
    splitP_append (by simp) (fun x hx => by simp; exact fun hc => ha (hc ▸ hx)),
    splitP_sep_free (fun x hx => by simp; exact fun hc => hbn (hc ▸ hx))]
  rfl

/-- Witness for C4 amended at a single-underscore key. -/
theorem claim_C4_amended_witness :
    residsOf [("C1_5", "9")] = specResidsOf [("C1_5", "9")] :=
  claim_C4_amended.1 [("C1_5", "9")] (by decide)

/-- Helper for C6: a scan that never sees the `[ bonds ]` marker can only end
by peeking past the last line, which raises. -/
theorem selLoop_no_bonds (lines : List String)
    (hnb : ∀ l ∈ lines, pyIn "[ bonds ]" l = false) :
    ∀ (fuel i : Nat) (start : Bool) (d : Dict), i < lines.length →
      fuel = lines.length - i → selLoop lines fuel i start d = none := by
  intro fuel
  induction fuel with
  | zero => intro i s d hi hf; omega
  | succ f ih =>
    intro i s d hi hf
    rw [selLoop_succ]
    cases hnext : lines[i + 1]? with
    | none => rfl
    | some nxt =>
      have hmem : nxt ∈ lines := List.getElem?_mem hnext
      have hb := hnb nxt hmem
      have hlt : i + 1 < lines.length := by
        rcases List.getElem?_eq_some.mp hnext with ⟨h, _⟩
        exact h
      simp only [hb]
      cases hstep : (if s then lineStep (lines.getD i "") d else some d) with
      | none => simp
      | some d' =>
        simp only [Bool.false_eq_true, if_false]
        exact ih (i + 1) _ d' hlt (by omega)

/-- C6: on a non-empty file with no `[ bonds ]` marker anywhere, the Selector
never returns a SelectionMap: the one-line lookahead runs past the end of the
file and raises. -/
theorem claim_C6_missing_bonds (lines : List String) (hne : lines ≠ [])
    (hnb : ∀ l ∈ lines, pyIn "[ bonds ]" l = false) :
    get_dict_selections lines = none := by
  have hlen : 0 < lines.length := List.length_pos.mpr hne
  exact selLoop_no_bonds lines hnb lines.length 0 false [] hlen (by omega)

/-- Witness for C6 on a concrete one-line file. -/
theorem claim_C6_witness : get_dict_selections ["hello"] = none :=
  claim_C6_missing_bonds ["hello"] (by decide) (by decide)

/-! ### The Selector as a fold over its emitted entries (for C8) -/

theorem selEntriesLoop_succ (lines : List String) (fuel i : Nat) (start : Bool) :
    selEntriesLoop lines (fuel + 1) i start =
      match lines[i + 1]? with
      | none => none
      | some nxt =>
        if pyIn "[ bonds ]" nxt then some []
        else
          match (if start then lineEntry (lines.getD i "") else some none) with
          | none => none
          | some eo =>
            match selEntriesLoop lines fuel (i + 1)
                (start || pyIn "[ atoms ]"
                  (if i = 0 then lines.getD (lines.length - 1) ""
                   else lines.getD (i - 1) "")) with
            | none => none
            | some es => some (match eo with | none => es | some e => e :: es) := rfl

theorem lineStep_lineEntry (line : String) (d : Dict) :
    lineStep line d = (lineEntry line).map
      (fun eo => match eo with | none => d | some e => insPair d e) := by
  unfold lineStep lineEntry
  cases h3 : (pysplit line)[3]? with
  | none => simp [h3]
  | some f3 =>
    simp only [h3]
    by_cases hc3 : (["YuA", "AIDOA"].any fun t => pyIn t f3) = true
    · simp only [hc3, if_true]
      cases h4 : (pysplit line)[4]? with
      | none => simp [h4]
      | some f4 =>
        simp only [h4]
        by_cases hc4 : (["C1", "O5", "C5", "C4", "C2", "C3"].any fun t => pyIn t f4) = true
        · simp only [hc4, if_true]
          cases h2 : (pysplit line)[2]? <;> cases h0 : (pysplit line)[0]? <;>
            simp [h2, h0, insPair]
        · simp [hc4]
    · simp [hc3]

theorem step_rel (line : String) (d : Dict) (s : Bool) :
    (if s then lineStep line d else some d) =
      (if s then lineEntry line else some none).map
        (fun eo => match eo with | none => d | some e => insPair d e) := by
  cases s with
  | false => rfl
  | true => exact lineStep_lineEntry line d

theorem selLoop_selEntriesLoop (lines : List String) :
    ∀ (fuel i : Nat) (start : Bool) (d : Dict),
      selLoop lines fuel i start d =
        (selEntriesLoop lines fuel i start).map (fun es => buildDict d es) := by
  intro fuel
  induction fuel with
  | zero => intro i s d; rfl
  | succ f ih =>
    intro i s d
    rw [selLoop_succ, selEntriesLoop_succ]
    cases hnext : lines[i + 1]? with
    | none => rfl
    | some nxt =>
      by_cases hb : pyIn "[ bonds ]" nxt = true
      · simp [hb, buildDict]
      · simp only [hb, Bool.false_eq_true, if_false]
        rw [step_rel]
        generalize (s || pyIn "[ atoms ]"
          (if i = 0 then lines.getD (lines.length - 1) "" else lines.getD (i - 1) "")) = st
        cases hle : (if s then lineEntry (lines.getD i "") else some none) with
        | none => rfl
        | some eo =>
          dsimp only [Option.map]
          rw [ih]
          cases hse : selEntriesLoop lines f (i + 1) st with
          | none => rfl
          | some es =>
            cases eo with
            | none => rfl
            | some e => rfl

/-- C8: duplicates overwrite: when the Selector succeeds, the value stored
under any key is the index field of the *last* matching line that produced
that key (the last entry for that key in the emission order). -/
theorem claim_C8_duplicates_overwrite (lines : List String) (d : Dict)
    (h : get_dict_selections lines = some d) :
    ∃ es, selEntries lines = some es ∧ ∀ k, mlookup k d = lastVal k es := by
  have hrel := selLoop_selEntriesLoop lines lines.length 0 false []
  rw [get_dict_selections] at h
  rw [hrel] at h
  cases hse : selEntriesLoop lines lines.length 0 false with
  | none => rw [hse] at h; cases h
  | some es =>
    rw [hse] at h
    have hd : buildDict [] es = d := Option.some.inj h
    refine ⟨es, hse, ?_⟩
    intro k
    rw [← hd, mlookup_buildDict]
    cases hl : lastVal k es <;> simp [hl, mlookup]

/-- Witness for C8: a file with two matching lines producing the same key
`C1_5`; the stored index is that of the later line. -/
theorem claim_C8_witness :
    ∃ es,
      selEntries ["[ atoms ]", "; h", "10 X 5 AIDOA C1", "99 X 5 AIDOA C1", "; p",
        "[ bonds ]"] = some es ∧
      ∀ k, mlookup k [("C1_5", "99")] = lastVal k es :=
  claim_C8_duplicates_overwrite _ _ (by decide)

/-! ### Formatter lemmas (for C5 and C7) -/

theorem formatResid_ok (d : Dict) (r : String)
    (h : ∀ k ∈ requiredKeys r, mlookup k d ≠ none) :
    ∃ s, formatResid d r = .ok s := by
  cases hc1 : mlookup ("C1_" ++ r) d with
  | none => exact absurd hc1 (h ("C1_" ++ r) (by simp [requiredKeys]))
  | some c1 =>
  cases hc2 : mlookup ("O5_" ++ r) d with
  | none => exact absurd hc2 (h ("O5_" ++ r) (by simp [requiredKeys]))
  | some o5 =>
  cases hc3 : mlookup ("C5_" ++ r) d with
  | none => exact absurd hc3 (h ("C5_" ++ r) (by simp [requiredKeys]))
  | some c5 =>
  cases hc4 : mlookup ("C4_" ++ r) d with
  | none => exact absurd hc4 (h ("C4_" ++ r) (by simp [requiredKeys]))
  | some c4 =>
  cases hc5 : mlookup ("C3_" ++ r) d with
  | none => exact absurd hc5 (h ("C3_" ++ r) (by simp [requiredKeys]))
  | some c3 =>
  cases hc6 : mlookup ("C2_" ++ r) d with
  | none => exact absurd hc6 (h ("C2_" ++ r) (by simp [requiredKeys]))
  | some c2 =>
    cases hfr : formatResid d r with
    | ok s => exact ⟨s, rfl⟩
    | error e =>
      simp only [formatResid, hc1, hc2, hc3, hc4, hc5, hc6] at hfr
      exact Except.noConfusion hfr

theorem formatResid_error (d : Dict) (r : String)
    (h : ∃ k ∈ requiredKeys r, mlookup k d = none) :
    ∃ k ∈ requiredKeys r, formatResid d r = .error k ∧ mlookup k d = none := by
  cases hc1 : mlookup ("C1_" ++ r) d with
  | none =>
    exact ⟨"C1_" ++ r, by simp [requiredKeys], by simp only [formatResid, hc1], hc1⟩
  | some c1 =>
  cases hc2 : mlookup ("O5_" ++ r) d with
  | none =>
    exact ⟨"O5_" ++ r, by simp [requiredKeys], by simp only [formatResid, hc1, hc2], hc2⟩
  | some o5 =>
  cases hc3 : mlookup ("C5_" ++ r) d with
  | none =>
    exact ⟨"C5_" ++ r, by simp [requiredKeys], by simp only [formatResid, hc1, hc2, hc3], hc3⟩
  | some c5 =>
  cases hc4 : mlookup ("C4_" ++ r) d with
  | none =>
    exact ⟨"C4_" ++ r, by simp [requiredKeys],
      by simp only [formatResid, hc1, hc2, hc3, hc4], hc4⟩
  | some c4 =>
  cases hc5 : mlookup ("C3_" ++ r) d with
  | none =>
    exact ⟨"C3_" ++ r, by simp [requiredKeys],
      by simp only [formatResid, hc1, hc2, hc3, hc4, hc5], hc5⟩
  | some c3 =>
  cases hc6 : mlookup ("C2_" ++ r) d with
  | none =>
    exact ⟨"C2_" ++ r, by simp [requiredKeys],
      by simp only [formatResid, hc1, hc2, hc3, hc4, hc5, hc6], hc6⟩
  | some c2 =>
    exfalso
    obtain ⟨k, hk, hkn⟩ := h
    simp only [requiredKeys, List.mem_cons, List.not_mem_nil, or_false] at hk
    rcases hk with rfl | rfl | rfl | rfl | rfl | rfl <;> simp_all

theorem formatBody_ok (d : Dict) :
    ∀ ids : List String, (∀ r ∈ ids, ∀ k ∈ requiredKeys r, mlookup k d ≠ none) →
      ∃ s, formatBody d ids = .ok s := by
  intro ids
  induction ids with
  | nil => intro _; exact ⟨"", rfl⟩
  | cons r rs ih =>
    intro h
    obtain ⟨s1, hs1⟩ := formatResid_ok d r (h r (by simp))
    obtain ⟨s2, hs2⟩ := ih (fun r2 h2 => h r2 (by simp [h2]))
    exact ⟨s1 ++ s2, by simp only [formatBody, hs1, hs2]⟩

theorem formatBody_error (d : Dict) :
    ∀ ids : List String, (∃ r ∈ ids, ∃ k ∈ requiredKeys r, mlookup k d = none) →
      ∃ k, formatBody d ids = .error k ∧ mlookup k d = none ∧
        ∃ r ∈ ids, k ∈ requiredKeys r := by
  intro ids
  induction ids with
  | nil =>
    intro h
    obtain ⟨r, hr, _⟩ := h
    simp at hr
  | cons r rs ih =>
    intro h
    by_cases hr : ∃ k ∈ requiredKeys r, mlookup k d = none
    · obtain ⟨k, hk, herr, hkn⟩ := formatResid_error d r hr
      exact ⟨k, by simp only [formatBody, herr], hkn, ⟨r, by simp, hk⟩⟩
    · have hall : ∀ k ∈ requiredKeys r, mlookup k d ≠ none :=
        fun k hk hn => hr ⟨k, hk, hn⟩
      obtain ⟨s1, hs1⟩ := formatResid_ok d r hall
      have hrs : ∃ r2 ∈ rs, ∃ k ∈ requiredKeys r2, mlookup k d = none := by
        obtain ⟨r2, hr2, hk⟩ := h
        rcases List.mem_cons.mp hr2 with hEq | hm
        · exact absurd (hEq ▸ hk) hr
        · exact ⟨r2, hm, hk⟩
      obtain ⟨k, hkerr, hkn, r2, hr2, hk2⟩ := ih hrs
      refine ⟨k, ?_, hkn, ⟨r2, by simp [hr2], hk2⟩⟩
      simp only [formatBody, hs1, hkerr]

/-- C5: for any SelectionMap and the residue ids derived from it, a missing
required key makes the whole Formatter run fail with an error naming a
missing required key, and when no required key is missing the run
succeeds. -/
theorem claim_C5_missing_key (d : Dict) (ids : List String)
    (hres : residsOf d = some ids) :
    ((∀ r ∈ ids, ∀ k ∈ requiredKeys r, mlookup k d ≠ none) →
        ∃ s, format_restraint d = .ok s) ∧
    ((∃ r ∈ ids, ∃ k ∈ requiredKeys r, mlookup k d = none) →
        ∃ k, format_restraint d = .error k ∧ mlookup k d = none ∧
          ∃ r ∈ ids, k ∈ requiredKeys r) := by
  constructor
  · intro h
    obtain ⟨s, hs⟩ := formatBody_ok d ids h
    cases hfm : format_restraint d with
    | ok s2 => exact ⟨s2, rfl⟩
    | error e =>
      simp only [format_restraint, hres, hs] at hfm
      exact Except.noConfusion hfm
  · intro h
    obtain ⟨k, hkerr, hkn, hex⟩ := formatBody_error d ids h
    exact ⟨k, by simp only [format_restraint, hres, hkerr], hkn, hex⟩

/-- Witness for C5: a map holding only `C1_5`; the run fails naming the
missing key `O5_5`. -/
theorem claim_C5_witness :
    ∃ k, format_restraint [("C1_5", "10")] = .error k ∧
      mlookup k [("C1_5", "10")] = none ∧ ∃ r ∈ ["5"], k ∈ requiredKeys r :=
  (claim_C5_missing_key [("C1_5", "10")] ["5"] (by decide)).2 (by decide)

/-! ### Position-shift and active-region lemmas for the Selector (for C2) -/

theorem selLoop_step_break (lines : List String) (f i : Nat) (s : Bool) (d : Dict)
    (nxt : String) (hn : lines[i + 1]? = some nxt)
    (hb : pyIn "[ bonds ]" nxt = true) :
    selLoop lines (f + 1) i s d = some d := by
  rw [selLoop_succ]
  simp [hn, hb]

theorem selLoop_step_inactive (lines : List String) (f i : Nat) (d : Dict)
    (nxt : String) (hn : lines[i + 1]? = some nxt)
    (hb : pyIn "[ bonds ]" nxt = false) :
    selLoop lines (f + 1) i false d =
      selLoop lines f (i + 1)
        (pyIn "[ atoms ]"
          (if i = 0 then lines.getD (lines.length - 1) "" else lines.getD (i - 1) "")) d := by
  rw [selLoop_succ]
  simp [hn, hb]

theorem selLoop_step_active (lines : List String) (f i : Nat) (d : Dict)
    (nxt : String) (hn : lines[i + 1]? = some nxt)
    (hb : pyIn "[ bonds ]" nxt = false) :
    selLoop lines (f + 1) i true d =
      match lineStep (lines.getD i "") d with
      | none => none
      | some d2 => selLoop lines f (i + 1) true d2 := by
  rw [selLoop_succ]
  simp [hn, hb]

theorem selLoop_shift (x : String) (L : List String) :
    ∀ (fuel j : Nat) (s : Bool) (d : Dict),
      selLoop (x :: L) fuel (j + 2) s d = selLoop L fuel (j + 1) s d := by
  intro fuel
  induction fuel with
  | zero => intro j s d; rfl
  | succ f ih =>
    intro j s d
    rw [selLoop_succ, selLoop_succ]
    rw [show ((j : Nat) + 1 + 1) = j + 2 from rfl]
    rw [show (x :: L)[j + 2 + 1]? = L[j + 2]? from List.getElem?_cons_succ]
    cases hn : L[j + 2]? with
    | none => rfl
    | some nxt =>
      by_cases hcb : pyIn "[ bonds ]" nxt = true
      · simp only [hcb, if_true]
      · simp only [hcb, Bool.false_eq_true, if_false]
        rw [show ((x :: L).getD (j + 2) "") = L.getD (j + 1) "" from List.getD_cons_succ]
        cases hst : (if s then lineStep (L.getD (j + 1) "") d else some d) with
        | none => rfl
        | some d2 =>
          rw [show (j + 2 - 1 : Nat) = j + 1 from rfl, show (j + 1 - 1 : Nat) = j from rfl]
          rw [if_neg (show ¬(j + 2 = 0) by omega), if_neg (show ¬(j + 1 = 0) by omega)]
          rw [show ((x :: L).getD (j + 1) "") = L.getD j "" from List.getD_cons_succ]
          exact ih (j + 1) _ d2

theorem selLoop_region (entryF : String → String × String) (pad : String)
    (hpad : pyIn "[ bonds ]" pad = false) :
    ∀ (l : List String) (fuel : Nat) (prev : String) (d : Dict),
      l.length + 1 ≤ fuel →
      (∀ x ∈ l, pyIn "[ bonds ]" x = false) →
      (∀ x ∈ l, ∀ d0, lineStep x d0 = some (insPair d0 (entryF x))) →
      selLoop (prev :: (l ++ [pad, "[ bonds ]"])) fuel 1 true d =
        some (buildDict d (l.map entryF)) := by
  intro l
  induction l with
  | nil =>
    intro fuel prev d hf _ _
    obtain ⟨f, rfl⟩ : ∃ f, fuel = f + 1 := ⟨fuel - 1, by omega⟩
    rw [selLoop_step_break _ f 1 true d "[ bonds ]" (by simp) (by decide)]
    rfl
  | cons x xs ih =>
    intro fuel prev d hf hb hstep
    obtain ⟨f, rfl⟩ : ∃ f, fuel = f + 1 := ⟨fuel - 1, by omega⟩
    obtain ⟨y, hy, hyb⟩ :
        ∃ y, (prev :: ((x :: xs) ++ [pad, "[ bonds ]"]))[1 + 1]? = some y ∧
          pyIn "[ bonds ]" y = false := by
      cases xs with
      | nil => exact ⟨pad, by simp, hpad⟩
      | cons z zs => exact ⟨z, by simp, hb z (by simp)⟩
    rw [selLoop_step_active _ f 1 d y hy hyb]
    rw [show ((prev :: ((x :: xs) ++ [pad, "[ bonds ]"])).getD 1 "") = x from rfl]
    rw [hstep x (by simp) d]
    dsimp only
    rw [show ((1 : Nat) + 1) = 0 + 2 from rfl, selLoop_shift]
    rw [show ((0 : Nat) + 1) = 1 from rfl]
    rw [List.cons_append]
    rw [ih f x (insPair d (entryF x)) (by simp at hf ⊢; omega)
      (fun z hz => hb z (by simp [hz])) (fun z hz d0 => hstep z (by simp [hz]) d0)]
    rfl

/-- C2 counterexample: the end-to-end scenario laid out minimally (the six
data lines directly between the two markers) does not print the block: the
Selector skips the first and last data lines, so the Formatter raises a
`KeyError` on `C1_5` and nothing is printed. -/
theorem claim_C2_counterexample :
    main_run ["[ atoms ]", "10 X 5 AIDOA C1", "11 X 5 AIDOA O5", "12 X 5 AIDOA C5",
        "13 X 5 AIDOA C4", "14 X 5 AIDOA C3", "15 X 5 AIDOA C2", "[ bonds ]"] =
      .error "C1_5" ∧
    (Except.error "C1_5" : Except String String) ≠ .ok c2Expected := by
  exact ⟨rfl, by simp⟩

set_option maxRecDepth 8192 in
/-- C2 amended: in the end-to-end scenario the six atom records must sit
strictly between the markers (a non-record line directly after `[ atoms ]`
and one directly before `[ bonds ]`); then, whatever the order of the six
records, the program prints exactly the block of the spec. -/
theorem claim_C2_end_to_end (l : List String) (hperm : l.Perm c2Lines) :
    main_run ("[ atoms ]" :: "; header" :: (l ++ ["; pad", "[ bonds ]"])) =
      .ok c2Expected := by
  have hlen : l.length = 6 := by rw [hperm.length_eq]; rfl
  have hes : (l.map c2Entry).Perm
      [("C1_5", "10"), ("O5_5", "11"), ("C5_5", "12"),
       ("C4_5", "13"), ("C3_5", "14"), ("C2_5", "15")] := by
    have h2 := hperm.map c2Entry
    rw [show c2Lines.map c2Entry =
      [("C1_5", "10"), ("O5_5", "11"), ("C5_5", "12"),
       ("C4_5", "13"), ("C3_5", "14"), ("C2_5", "15")] from by decide] at h2
    exact h2
  have hnodup : ((l.map c2Entry).map (fun p => p.1)).Nodup := by
    have h2 := hes.map (fun p => p.1)
    exact (List.Perm.nodup_iff h2).mpr (by decide)
  have hlookup : ∀ k v : String,
      (k, v) ∈ ([("C1_5", "10"), ("O5_5", "11"), ("C5_5", "12"),
        ("C4_5", "13"), ("C3_5", "14"), ("C2_5", "15")] : List (String × String)) →
      mlookup k (buildDict [] (l.map c2Entry)) = some v := by
    intro k v hm
    have hm2 : (k, v) ∈ l.map c2Entry := hes.mem_iff.mpr hm
    rw [mlookup_buildDict, lastVal_of_nodup hnodup hm2]
  obtain ⟨a1, a2, a3, a4, a5, a6, rfl⟩ :
      ∃ a1 a2 a3 a4 a5 a6, l = [a1, a2, a3, a4, a5, a6] := by
    cases l with
    | nil => simp at hlen
    | cons a1 l =>
    cases l with
    | nil => simp at hlen
    | cons a2 l =>
    cases l with
    | nil => simp at hlen
    | cons a3 l =>
    cases l with
    | nil => simp at hlen
    | cons a4 l =>
    cases l with
    | nil => simp at hlen
    | cons a5 l =>
    cases l with
    | nil => simp at hlen
    | cons a6 l =>
    cases l with
    | nil => exact ⟨a1, a2, a3, a4, a5, a6, rfl⟩
    | cons a7 l => simp at hlen
  have hmem : ∀ x ∈ [a1, a2, a3, a4, a5, a6], x ∈ c2Lines :=
    fun x hx => hperm.mem_iff.mp hx
  have hfacts : ∀ x ∈ c2Lines,
      pyIn "[ bonds ]" x = false ∧ pyIn "[ atoms ]" x = false ∧
      (∀ d0, lineStep x d0 = some (insPair d0 (c2Entry x))) := by
    intro x hx
    fin_cases hx <;> exact ⟨by decide, by decide, fun d0 => rfl⟩
  have hsel : get_dict_selections
      ("[ atoms ]" :: "; header" :: ([a1, a2, a3, a4, a5, a6] ++ ["; pad", "[ bonds ]"])) =
      some (buildDict [] ([a1, a2, a3, a4, a5, a6].map c2Entry)) := by
    rw [show get_dict_selections
        ("[ atoms ]" :: "; header" :: ([a1, a2, a3, a4, a5, a6] ++ ["; pad", "[ bonds ]"])) =
        selLoop ("[ atoms ]" :: "; header" :: ([a1, a2, a3, a4, a5, a6] ++
          ["; pad", "[ bonds ]"])) (9 + 1) 0 false [] from rfl]
    rw [selLoop_step_inactive _ 9 0 [] "; header" (by simp) (by decide)]
    rw [show (if (0 : Nat) = 0 then
        ("[ atoms ]" :: "; header" :: ([a1, a2, a3, a4, a5, a6] ++
          ["; pad", "[ bonds ]"])).getD
          (("[ atoms ]" :: "; header" :: ([a1, a2, a3, a4, a5, a6] ++
            ["; pad", "[ bonds ]"])).length - 1) ""
        else ("[ atoms ]" :: "; header" :: ([a1, a2, a3, a4, a5, a6] ++
          ["; pad", "[ bonds ]"])).getD (0 - 1) "") = "[ bonds ]" from by simp]
    rw [(by decide : pyIn "[ atoms ]" "[ bonds ]" = false)]
    rw [show (9 : Nat) = 8 + 1 from rfl]
    rw [selLoop_step_inactive _ 8 1 [] a1 (by simp) (hfacts a1 (hmem a1 (by simp))).1]
    rw [show (if (1 : Nat) = 0 then
        ("[ atoms ]" :: "; header" :: ([a1, a2, a3, a4, a5, a6] ++
          ["; pad", "[ bonds ]"])).getD
          (("[ atoms ]" :: "; header" :: ([a1, a2, a3, a4, a5, a6] ++
            ["; pad", "[ bonds ]"])).length - 1) ""
        else ("[ atoms ]" :: "; header" :: ([a1, a2, a3, a4, a5, a6] ++
          ["; pad", "[ bonds ]"])).getD (1 - 1) "") = "[ atoms ]" from by simp]
    rw [(by decide : pyIn "[ atoms ]" "[ atoms ]" = true)]
    rw [show ((1 : Nat) + 1) = 0 + 2 from rfl, selLoop_shift]
    rw [show ((0 : Nat) + 1) = 1 from rfl]
    exact selLoop_region c2Entry "; pad" (by decide) [a1, a2, a3, a4, a5, a6] 8 "; header" []
      (by simp)
      (fun z hz => (hfacts z (hmem z hz)).1)
      (fun z hz d0 => (hfacts z (hmem z hz)).2.2 d0)
  have hne : buildDict [] ([a1, a2, a3, a4, a5, a6].map c2Entry) ≠ [] := by
    intro h0
    have hl := hlookup "C1_5" "10" (by simp)
    rw [h0] at hl
    exact Option.noConfusion hl
  have hkeys : ∀ k2 ∈ (buildDict [] ([a1, a2, a3, a4, a5, a6].map c2Entry)).map
      (fun p => p.1), residOf k2 = some "5" := by
    intro k2 hk2
    rcases mem_keys_buildDict hk2 with h | h
    · simp at h
    · have h2 : k2 ∈ ([("C1_5", "10"), ("O5_5", "11"), ("C5_5", "12"),
          ("C4_5", "13"), ("C3_5", "14"), ("C2_5", "15")] :
          List (String × String)).map (fun p => p.1) :=
        (hes.map (fun p => p.1)).mem_iff.mp h
      simp only [List.map_cons, List.map_nil, List.mem_cons, List.not_mem_nil,
        or_false] at h2
      rcases h2 with rfl | rfl | rfl | rfl | rfl | rfl <;> decide
  have hres : residsOf (buildDict [] ([a1, a2, a3, a4, a5, a6].map c2Entry)) =
      some ["5"] := by
    unfold residsOf
    rw [mapM_const_some hkeys, Option.map_some']
    rw [osetList_const
      (by
        intro hmap
        exact hne (List.map_eq_nil_iff.mp ((List.map_eq_nil_iff).mp hmap)))
      (fun x hx => by
        obtain ⟨y, _, hy⟩ := List.mem_map.mp hx
        exact hy.symm)]
  have hfmt : format_restraint (buildDict [] ([a1, a2, a3, a4, a5, a6].map c2Entry)) =
      .ok c2Expected := by
    have l1 := hlookup "C1_5" "10" (by simp)
    have l2 := hlookup "O5_5" "11" (by simp)
    have l3 := hlookup "C5_5" "12" (by simp)
    have l4 := hlookup "C4_5" "13" (by simp)
    have l5 := hlookup "C3_5" "14" (by simp)
    have l6 := hlookup "C2_5" "15" (by simp)
    simp only [format_restraint, hres, formatBody, formatResid,
      show ("C1_" ++ "5" : String) = "C1_5" from rfl,
      show ("O5_" ++ "5" : String) = "O5_5" from rfl,
      show ("C5_" ++ "5" : String) = "C5_5" from rfl,
      show ("C4_" ++ "5" : String) = "C4_5" from rfl,
      show ("C3_" ++ "5" : String) = "C3_5" from rfl,
      show ("C2_" ++ "5" : String) = "C2_5" from rfl,
      l1, l2, l3, l4, l5, l6]
    rfl
  rw [main_run, hsel]
  exact hfmt

/-! ### Output line structure (for C7) -/

theorem mk_data (l : List Char) : (String.mk l).data = l := rfl

theorem data_append (s t : String) : (s ++ t).data = s.data ++ t.data := rfl

theorem glueNL_append : ∀ A B : List (List Char), glueNL (A ++ B) = glueNL A ++ glueNL B := by
  intro A B
  induction A with
  | nil => rfl
  | cons x xs ih => simp [glueNL, ih]

theorem splitP_glue :
    ∀ (bl : List (List Char)) (E : List Char),
      (∀ x ∈ bl, ('\x0a' : Char) ∉ x) → ('\x0a' : Char) ∉ E →
      splitP (fun c => c = '\x0a') (glueNL bl ++ E) = bl ++ [E] := by
  intro bl
  induction bl with
  | nil =>
    intro E _ hE
    rw [show glueNL [] ++ E = E from by simp [glueNL]]
    exact splitP_sep_free (fun x hx => decide_eq_false (fun hc => hE (hc ▸ hx)))
  | cons x xs ih =>
    intro E hbl hE
    rw [show glueNL (x :: xs) ++ E = x ++ '\x0a' :: (glueNL xs ++ E) from by
      simp [glueNL]]
    rw [splitP_append (by simp)
      (fun c hc => decide_eq_false (fun (h2 : c = '\x0a') => hbl x (by simp) (h2 ▸ hc)))]
    rw [ih E (fun y hy => hbl y (by simp [hy])) hE]
    rfl

set_option maxRecDepth 8192 in
theorem formatResid_block (d : Dict) (r c1 o5 c5 c4 c3 c2 : String)
    (h1 : mlookup ("C1_" ++ r) d = some c1)
    (h2 : mlookup ("O5_" ++ r) d = some o5)
    (h3 : mlookup ("C5_" ++ r) d = some c5)
    (h4 : mlookup ("C4_" ++ r) d = some c4)
    (h5 : mlookup ("C3_" ++ r) d = some c3)
    (h6 : mlookup ("C2_" ++ r) d = some c2) :
    formatResid d r =
      .ok (String.mk (glueNL ((residLines c1 o5 c5 c4 c3 c2).map String.data))) := by
  simp only [formatResid, h1, h2, h3, h4, h5, h6]
  refine congrArg Except.ok (String.ext ?_)
  simp [mk_data, residLines, glueNL, data_append]

theorem residLines_props (c1 o5 c5 c4 c3 c2 : String)
    (hv1 : ('\x0a' : Char) ∉ c1.data) (hv2 : ('\x0a' : Char) ∉ o5.data)
    (hv3 : ('\x0a' : Char) ∉ c5.data) (hv4 : ('\x0a' : Char) ∉ c4.data)
    (hv5 : ('\x0a' : Char) ∉ c3.data) (hv6 : ('\x0a' : Char) ∉ c2.data) :
    ∀ x ∈ (residLines c1 o5 c5 c4 c3 c2).map String.data,
      ('\x0a' : Char) ∉ x ∧ x.head? = some ' ' := by
  have n4 : ('\x0a' : Char) ∉ ("    " : String).data := by decide
  have n3 : ('\x0a' : Char) ∉ ("   " : String).data := by decide
  have t1 : ('\x0a' : Char) ∉
      ("     1    -60.0      2.5       DIHRES_FC ; C1    O5    C5    C4" : String).data := by
    decide
  have t2 : ('\x0a' : Char) ∉
      ("     1     60.0      2.5       DIHRES_FC ; O5    C5    C4    C3" : String).data := by
    decide
  have t3 : ('\x0a' : Char) ∉
      ("     1    -60.0      2.5       DIHRES_FC ; C5    C4    C3    C2" : String).data := by
    decide
  have t4 : ('\x0a' : Char) ∉
      ("     1     60.0      2.5       DIHRES_FC ; C4    C3    C2    C1" : String).data := by
    decide
  have t5 : ('\x0a' : Char) ∉
      ("     1    -60.0      2.5       DIHRES_FC ; C3    C2    C1    O5" : String).data := by
    decide
  have t6 : ('\x0a' : Char) ∉
      ("     1     60.0      2.5       DIHRES_FC ; C2    C1    O5    C5" : String).data := by
    decide
  have hsp : ("    " : String).data = ' ' :: ("   " : String).data := by decide
  intro x hx
  simp only [residLines, List.map_cons, List.map_nil, List.mem_cons,
    List.not_mem_nil, or_false] at hx
  rcases hx with rfl | rfl | rfl | rfl | rfl | rfl <;>
    refine ⟨?_, by simp [data_append, hsp]⟩ <;>
    simp [data_append, List.mem_append, n4, n3, t1, t2, t3, t4, t5, t6,
      hv1, hv2, hv3, hv4, hv5, hv6]

theorem formatBody_struct (d : Dict) (hnl : ∀ e ∈ d, ('\x0a' : Char) ∉ e.2.data) :
    ∀ ids : List String, (∀ r ∈ ids, ∀ k ∈ requiredKeys r, mlookup k d ≠ none) →
      ∃ bl : List (List Char), formatBody d ids = .ok (String.mk (glueNL bl)) ∧
        bl.length = 6 * ids.length ∧
        ∀ x ∈ bl, ('\x0a' : Char) ∉ x ∧ x.head? = some ' ' := by
  intro ids
  induction ids with
  | nil =>
    intro _
    exact ⟨[], rfl, rfl, by simp⟩
  | cons r rs ih =>
    intro h
    have hr := h r (by simp)
    cases hc1 : mlookup ("C1_" ++ r) d with
    | none => exact absurd hc1 (hr ("C1_" ++ r) (by simp [requiredKeys]))
    | some c1 =>
    cases hc2 : mlookup ("O5_" ++ r) d with
    | none => exact absurd hc2 (hr ("O5_" ++ r) (by simp [requiredKeys]))
    | some o5 =>
    cases hc3 : mlookup ("C5_" ++ r) d with
    | none => exact absurd hc3 (hr ("C5_" ++ r) (by simp [requiredKeys]))
    | some c5 =>
    cases hc4 : mlookup ("C4_" ++ r) d with
    | none => exact absurd hc4 (hr ("C4_" ++ r) (by simp [requiredKeys]))
    | some c4 =>
    cases hc5 : mlookup ("C3_" ++ r) d with
    | none => exact absurd hc5 (hr ("C3_" ++ r) (by simp [requiredKeys]))
    | some c3 =>
    cases hc6 : mlookup ("C2_" ++ r) d with
    | none => exact absurd hc6 (hr ("C2_" ++ r) (by simp [requiredKeys]))
    | some c2 =>
    have hv1 : ('\x0a' : Char) ∉ c1.data := hnl _ (mlookup_mem hc1)
    have hv2 : ('\x0a' : Char) ∉ o5.data := hnl _ (mlookup_mem hc2)
    have hv3 : ('\x0a' : Char) ∉ c5.data := hnl _ (mlookup_mem hc3)
    have hv4 : ('\x0a' : Char) ∉ c4.data := hnl _ (mlookup_mem hc4)
    have hv5 : ('\x0a' : Char) ∉ c3.data := hnl _ (mlookup_mem hc5)
    have hv6 : ('\x0a' : Char) ∉ c2.data := hnl _ (mlookup_mem hc6)
    have hblock := formatResid_block d r c1 o5 c5 c4 c3 c2 hc1 hc2 hc3 hc4 hc5 hc6
    obtain ⟨bl2, hbl2, hlen2, hprops2⟩ := ih (fun r2 h2 => h r2 (by simp [h2]))
    refine ⟨(residLines c1 o5 c5 c4 c3 c2).map String.data ++ bl2, ?_, ?_, ?_⟩
    · simp only [formatBody, hblock, hbl2]
      refine congrArg Except.ok (String.ext ?_)
      simp [data_append, mk_data, glueNL_append]
    · simp only [List.length_append, List.length_map, residLines, List.length_cons,
        List.length_nil, hlen2, List.length_cons]
      omega
    · intro x hx
      rcases List.mem_append.mp hx with hm | hm
      · exact residLines_props c1 o5 c5 c4 c3 c2 hv1 hv2 hv3 hv4 hv5 hv6 x hm
      · exact hprops2 x hm

/-- C7: for a SelectionMap with N derived residue ids, each with all six keys
present (and atom-index values free of newlines, as the Selector produces),
the printed block has the guard line exactly once, the section header exactly
once, exactly 6 N restraint lines between them and the final `#endif`, and
`#endif` exactly once, as the last line. -/
theorem claim_C7_block_structure (d : Dict) (ids : List String)
    (hres : residsOf d = some ids)
    (hall : ∀ r ∈ ids, ∀ k ∈ requiredKeys r, mlookup k d ≠ none)
    (hnl : ∀ e ∈ d, ('\x0a' : Char) ∉ e.2.data) :
    ∃ s body, format_restraint d = .ok s ∧
      lineList s = "#ifdef PUCKER" :: "[ dihedral_restraints ]" :: (body ++ ["#endif"]) ∧
      body.length = 6 * ids.length ∧
      (lineList s).count "#ifdef PUCKER" = 1 ∧
      (lineList s).count "[ dihedral_restraints ]" = 1 ∧
      (lineList s).count "#endif" = 1 ∧
      (lineList s).getLast? = some "#endif" := by
  obtain ⟨bl, hbl, hlen, hprops⟩ := formatBody_struct d hnl ids hall
  have hfmt : format_restraint d =
      .ok ("#ifdef PUCKER\n[ dihedral_restraints ]\n" ++ String.mk (glueNL bl) ++
        "#endif") := by
    simp only [format_restraint, hres, hbl]
  have hdata : ("#ifdef PUCKER\n[ dihedral_restraints ]\n" ++ String.mk (glueNL bl) ++
      "#endif").data =
      glueNL (("#ifdef PUCKER" : String).data :: ("[ dihedral_restraints ]" : String).data ::
        bl) ++ ("#endif" : String).data := by
    simp [data_append, mk_data, glueNL,
      (by decide : ("#ifdef PUCKER\n[ dihedral_restraints ]\n" : String).data =
        ("#ifdef PUCKER" : String).data ++
          '\x0a' :: (("[ dihedral_restraints ]" : String).data ++ ['\x0a']))]
  have hlines : lineList ("#ifdef PUCKER\n[ dihedral_restraints ]\n" ++
      String.mk (glueNL bl) ++ "#endif") =
      "#ifdef PUCKER" :: "[ dihedral_restraints ]" :: (bl.map String.mk ++ ["#endif"]) := by
    unfold lineList
    rw [hdata, splitP_glue _ _ ?hfree (by decide)]
    · simp [mk_data]
    case hfree =>
      intro x hx
      rcases List.mem_cons.mp hx with rfl | hx2
      · decide
      rcases List.mem_cons.mp hx2 with rfl | hx3
      · decide
      · exact (hprops x hx3).1
  have hbody : ∀ x ∈ bl.map String.mk,
      x ≠ "#ifdef PUCKER" ∧ x ≠ "[ dihedral_restraints ]" ∧ x ≠ "#endif" := by
    intro x hx
    obtain ⟨lc, hlc, rfl⟩ := List.mem_map.mp hx
    have hh := (hprops lc hlc).2
    refine ⟨?_, ?_, ?_⟩ <;> intro hEq <;>
      rw [show lc = (String.mk lc).data from rfl, hEq] at hh <;>
      exact absurd hh (by decide)
  have hcnt0 : ∀ y : String,
      y = "#ifdef PUCKER" ∨ y = "[ dihedral_restraints ]" ∨ y = "#endif" →
      (bl.map String.mk).count y = 0 := by
    intro y hy
    rw [List.count_eq_zero]
    intro hmem
    rcases hy with rfl | rfl | rfl
    · exact (hbody _ hmem).1 rfl
    · exact (hbody _ hmem).2.1 rfl
    · exact (hbody _ hmem).2.2 rfl
  refine ⟨_, bl.map String.mk, hfmt, hlines, ?_, ?_, ?_, ?_, ?_⟩
  · rw [List.length_map]
    exact hlen
  · rw [hlines]
    simp [List.count_cons, List.count_append,
      hcnt0 "#ifdef PUCKER" (Or.inl rfl)]
  · rw [hlines]
    simp [List.count_cons, List.count_append,
      hcnt0 "[ dihedral_restraints ]" (Or.inr (Or.inl rfl))]
  · rw [hlines]
    simp [List.count_cons, List.count_append,
      hcnt0 "#endif" (Or.inr (Or.inr rfl))]
  · rw [hlines, show ("#ifdef PUCKER" :: "[ dihedral_restraints ]" ::
      (bl.map String.mk ++ ["#endif"]) : List String) =
      ("#ifdef PUCKER" :: "[ dihedral_restraints ]" :: bl.map String.mk) ++ ["#endif"]
      from by simp]
    exact List.getLast?_concat _

/-- Witness for C7 on a two-residue map. -/
theorem claim_C7_witness :
    ∃ s body,
      format_restraint
        [("C1_5", "10"), ("O5_5", "11"), ("C5_5", "12"), ("C4_5", "13"),
         ("C3_5", "14"), ("C2_5", "15"), ("C1_7", "20"), ("O5_7", "21"),
         ("C5_7", "22"), ("C4_7", "23"), ("C3_7", "24"), ("C2_7", "25")] = .ok s ∧
      lineList s = "#ifdef PUCKER" :: "[ dihedral_restraints ]" :: (body ++ ["#endif"]) ∧
      body.length = 6 * (["5", "7"] : List String).length ∧
      (lineList s).count "#ifdef PUCKER" = 1 ∧
      (lineList s).count "[ dihedral_restraints ]" = 1 ∧
      (lineList s).count "#endif" = 1 ∧
      (lineList s).getLast? = some "#endif" :=
  claim_C7_block_structure _ ["5", "7"] (by decide) (by decide) (by decide)

/-- Witness for C2: the six records in a shuffled order still print the exact
block. -/
theorem claim_C2_witness :
    main_run ("[ atoms ]" :: "; header" ::
      (["15 X 5 AIDOA C2", "13 X 5 AIDOA C4", "10 X 5 AIDOA C1", "14 X 5 AIDOA C3",
        "12 X 5 AIDOA C5", "11 X 5 AIDOA O5"] ++ ["; pad", "[ bonds ]"])) = .ok c2Expected :=
  claim_C2_end_to_end _ (by decide)

end RestrainPucker
